import Mathlib

/-!
# Verification of the parserlib left-recursion parsing engine

This file gives a shallow embedding, in Lean 4, of the parsing engine of the
parserlib repository, and proves (or refutes) the frozen claims about it.

The repository contains two coexisting rule implementations:

* the exception-driven engine: `include/parserlib/Rule.hpp`
  (`Rule::operator()`) together with `include/parserlib/ChoiceParser.hpp`
  (`ChoiceParser::parseTuple`, which catches `LeftRecursionException`);
* the verdict-based engine: `include/parserlib/rule.hpp` (`rule::parse`,
  `rule::activate`, `rule::deactivate`), which threads a
  `parse_result` sum type instead of throwing.

Both are embedded below.  C++ mutation is made explicit by threading the
whole machine state through every call; a C++ exception is modelled by the
`PResult.lre` variant, which every combinator propagates except the
choice, which catches it (exactly as `ChoiceParser::parseTuple` does).
Headers referenced by the engine but absent from the source tree
(`ParseContext.hpp`, `SequenceParser.hpp`, `Match.hpp`, the terminal
parsers, `parse_context.hpp`) are modelled from the specification; each
such definition is marked `Modelled from the spec:` in its doc comment.
-/

/-! ## The exception-driven engine (Rule.hpp / ChoiceParser.hpp) -/

/-- Match record.  Modelled from the spec: `Match.hpp` is not in the
source tree.  A match carries a label, the half-open input span
`[b, e)` it covers, and its child matches (spec section 3, Match record). -/
inductive MatchRec where
  | node (label : Nat) (b : Nat) (e : Nat) (children : List MatchRec)

/-- Identity of a rule object (`Rule<ParseContextType>*` in C++). -/
abbrev RuleId := Nat

/-- The recursion state of a rule: the `State` enum nested in `Rule`
(`Rule.hpp`, lines 112-116). -/
inductive RState where
  | Normal
  | Reject
  | Accept
deriving DecidableEq, Repr

/-- The mutable fields of a `Rule` object: `m_parsePosition`
(`std::optional<Position>`) and `m_state` (`Rule.hpp`, lines 118-119).
These are fields of the rule object itself in the C++ source; the
embedding threads them through the machine state, keyed by the rule's
identity, so that their mutation is explicit. -/
structure RuleSt where
  parsePosition : Option Nat
  state : RState
deriving DecidableEq, Repr

/-- The parse context data visible to the engine.  Modelled from the spec:
`ParseContext.hpp` is not in the source tree.  It holds the immutable
input, the cursor (`sourcePosition()`), and the growing match list
(spec section 3, Parse context).  The end sentinel
(`sourceEndPosition()`) is `input.length`. -/
structure Ctx where
  input : List Char
  pos : Nat
  matchList : List MatchRec

/-- The whole machine state: the parse context plus the fields of every
rule object (threaded explicitly; in C++ they live on the `Rule` objects
themselves). -/
structure PS where
  ctx : Ctx
  rules : RuleId → RuleSt

/-- Result of invoking a parser: `ok b` is the C++ `bool` return value;
`lre r` models a `LeftRecursionException` referencing rule `r`
unwinding through this frame. -/
inductive PResult where
  | ok (b : Bool)
  | lre (r : RuleId)
deriving DecidableEq, Repr

/-- A parser, as a state transformer.  `none` marks fuel exhaustion of the
embedding (the C++ computation does not terminate within the given fuel). -/
abbrev ParserFun := PS → Option (PResult × PS)

/-- A snapshot as captured by `pc.state()`.  Modelled from the spec:
`state_snapshot()` captures the pair (cursor, match-list-length)
(spec section 4.4). -/
structure Snap where
  pos : Nat
  mlen : Nat

/-- `pc.state()`.  Modelled from the spec (section 4.4). -/
def PS.state (ps : PS) : Snap :=
  { pos := ps.ctx.pos, mlen := ps.ctx.matchList.length }

/-- `pc.setState(snapshot)`.  Modelled from the spec (section 4.4):
restores the cursor and truncates the match list to the recorded length. -/
def PS.setState (ps : PS) (s : Snap) : PS :=
  { ps with ctx := { ps.ctx with pos := s.pos, matchList := ps.ctx.matchList.take s.mlen } }

/-- Overwrite the fields of rule `r` (helper for the save/restore and the
state-setting members of `Rule`). -/
def setRule (r : RuleId) (rs : RuleSt) (ps : PS) : PS :=
  { ps with rules := fun q => if q = r then rs else ps.rules q }

/-- `Rule::setRejectState()` (`Rule.hpp`, lines 100-102): sets `m_state`
only, leaving `m_parsePosition` alone. -/
def setRejectState (r : RuleId) (ps : PS) : PS :=
  setRule r { parsePosition := (ps.rules r).parsePosition, state := .Reject } ps

/-- `Rule::setAcceptState()` (`Rule.hpp`, lines 107-109). -/
def setAcceptState (r : RuleId) (ps : PS) : PS :=
  setRule r { parsePosition := (ps.rules r).parsePosition, state := .Accept } ps

/-- `Rule::setParsePosition(position)` (`Rule.hpp`, lines 93-95). -/
def setParsePosition (r : RuleId) (p : Nat) (ps : PS) : PS :=
  setRule r { parsePosition := some p, state := (ps.rules r).state } ps

/-- `Rule::operator()(pc)` (`Rule.hpp`, lines 53-79), for a rule `r` whose
wrapped parser is `body`.  First the left-recursion check: if
`m_parsePosition == pc.sourcePosition()` the result is dictated by
`m_state` (`Normal` throws `LeftRecursionException`, `Reject` returns
`false`, `Accept` returns `true`) and nothing is touched.  Otherwise the
rule saves `m_parsePosition`/`m_state`, sets them to the current position
and `Normal`, runs the body, restores the saved values, and returns the
body's verdict.  Note that the restore (lines 74-76) is on the normal
return path only: when the body throws, C++ stack unwinding skips it,
so the `lre` outcome is propagated with the rule state left as set. -/
def ruleInvoke (r : RuleId) (body : ParserFun) : ParserFun := fun ps =>
  if (ps.rules r).parsePosition = some ps.ctx.pos then
    match (ps.rules r).state with
    | .Normal => some (.lre r, ps)
    | .Reject => some (.ok false, ps)
    | .Accept => some (.ok true, ps)
  else
    match body (setRule r { parsePosition := some ps.ctx.pos, state := .Normal } ps) with
    | none => none
    | some (.ok b, ps2) => some (.ok b, setRule r (ps.rules r) ps2)
    | some (.lre q, ps2) => some (.lre q, ps2)

/-- The grow loop of `ChoiceParser::parseTuple` (`ChoiceParser.hpp`,
lines 69-78): repeatedly set the rule's parse position to the current
cursor and re-invoke the recursive alternative `child`; break when it
returns `false` or when the cursor has reached the end of input.  The
C++ loop has no fuel: `none` here means the loop (or a nested call)
failed to terminate within `fuel` iterations.  A nested
`LeftRecursionException` (for another rule) escapes the loop. -/
def growLoop (child : ParserFun) (r : RuleId) : Nat → PS → Option (PResult × PS)
  | 0, _ => none
  | fuel + 1, ps =>
    match child (setParsePosition r ps.ctx.pos ps) with
    | none => none
    | some (.ok false, ps2) => some (.ok true, ps2)
    | some (.ok true, ps2) =>
      if ps2.ctx.pos = ps2.ctx.input.length then some (.ok true, ps2)
      else growLoop child r fuel ps2
    | some (.lre q, ps2) => some (.lre q, ps2)

/-- `ChoiceParser::parseTuple` (`ChoiceParser.hpp`, lines 48-90) over the
list of child parsers.  Each level snapshots `pc.state()`; a child that
succeeds ends the choice; a child that fails is followed by
`pc.setState(state)` and the next child.  A `LeftRecursionException` for
rule `r` is caught: the rule is put in `Reject` state and the remaining
alternatives are attempted (note: without restoring the snapshot first,
exactly as in the C++); if they fail the original exception is rethrown;
if they succeed the rule is put in `Accept` state and the grow loop runs,
after which the choice returns `true`.  An exception thrown while parsing
the remaining alternatives (or inside the grow loop) propagates. -/
def parseTuple (fuel : Nat) : List ParserFun → PS → Option (PResult × PS)
  | [], ps => some (.ok false, ps)
  | c :: rest, ps =>
    match c ps with
    | none => none
    | some (.ok true, ps1) => some (.ok true, ps1)
    | some (.ok false, ps1) => parseTuple fuel rest (ps1.setState ps.state)
    | some (.lre r, ps1) =>
      match parseTuple fuel rest (setRejectState r ps1) with
      | none => none
      | some (.ok false, ps3) => some (.lre r, ps3)
      | some (.lre q, ps3) => some (.lre q, ps3)
      | some (.ok true, ps3) => growLoop c r fuel (setAcceptState r ps3)

/-- Single-element terminal parser.  Modelled from the spec:
`TerminalParser.hpp` is not in the source tree.  Succeeds and advances
when the cursor is not at end-of-input and the element under it equals
the literal; otherwise leaves the context untouched and rejects
(spec section 4.1). -/
def termParse (c : Char) : ParserFun := fun ps =>
  if h : ps.ctx.pos < ps.ctx.input.length then
    if ps.ctx.input.get ⟨ps.ctx.pos, h⟩ = c then
      some (.ok true, { ps with ctx := { ps.ctx with pos := ps.ctx.pos + 1 } })
    else some (.ok false, ps)
  else some (.ok false, ps)

/-- Sequence combinator.  Modelled from the spec: `SequenceParser.hpp` is
not in the source tree.  Invoke `a`; on success invoke `b`; on failure of
either, restore cursor and match list to the snapshot taken before `a`
(spec section 4.2).  A left-recursion signal propagates unchanged. -/
def seqStep (a b : ParserFun) : ParserFun := fun ps =>
  match a ps with
  | none => none
  | some (.ok false, ps1) => some (.ok false, ps1.setState ps.state)
  | some (.lre r, ps1) => some (.lre r, ps1)
  | some (.ok true, ps1) =>
    match b ps1 with
    | none => none
    | some (.ok true, ps2) => some (.ok true, ps2)
    | some (.ok false, ps2) => some (.ok false, ps2.setState ps.state)
    | some (.lre r, ps2) => some (.lre r, ps2)

/-- Match-tagging combinator.  Modelled from the spec: `Match.hpp` is not
in the source tree.  Snapshot the start position and match-list length;
on success of the child, wrap the suffix of match records it produced into one
record with the given label and span; on failure truncate back to the
snapshot and propagate the failure (spec section 4.2). -/
def tagParse (label : Nat) (a : ParserFun) : ParserFun := fun ps =>
  match a ps with
  | none => none
  | some (.ok true, ps1) =>
    some (.ok true, { ps1 with ctx := { ps1.ctx with
      matchList := ps1.ctx.matchList.take ps.ctx.matchList.length ++
        [MatchRec.node label ps.ctx.pos ps1.ctx.pos (ps1.ctx.matchList.drop ps.ctx.matchList.length)] } })
  | some (.ok false, ps1) => some (.ok false, ps1.setState ps.state)
  | some (.lre r, ps1) => some (.lre r, ps1)

/-- Deep-embedded parser expressions: the shapes the engine composes
(spec sections 2 and 4; the terminal and sequence shapes modelled from
the spec where their headers are missing from the source tree).
`choice` children are kept as a flattened list, matching the n-ary
flattening of `ChoiceParser`. -/
inductive Expr where
  | eps
  | term (c : Char)
  | seq (a b : Expr)
  | choice (cs : List Expr)
  | tag (label : Nat) (e : Expr)
  | ruleRef (r : RuleId)

/-- A grammar assigns to every rule identity the body expression of that
rule (the parser held by `Rule::m_parser`). -/
abbrev Grammar := RuleId → Expr

/-- The fueled evaluator of the deep embedding.  Fuel decreases on every
recursion level; `none` means the budget was exhausted (in particular, a
run that returns `none` for every fuel models a C++ computation that
does not terminate). -/
def eval (G : Grammar) : Nat → Expr → ParserFun
  | 0, _, _ => none
  | fuel + 1, e, ps =>
    match e with
    | .eps => some (.ok true, ps)
    | .term c => termParse c ps
    | .seq a b => seqStep (eval G fuel a) (eval G fuel b) ps
    | .choice cs => parseTuple fuel (cs.map fun e' => eval G fuel e') ps
    | .tag l a => tagParse l (eval G fuel a) ps
    | .ruleRef r => ruleInvoke r (eval G fuel (G r)) ps

/-- Default field values of a freshly constructed `Rule`
(`Rule.hpp`, lines 118-119): empty optional position, `Normal` state. -/
def initRuleSt : RuleSt := { parsePosition := none, state := .Normal }

/-- A fresh machine state for parsing `input` from position 0. -/
def initPS (input : List Char) : PS :=
  { ctx := { input := input, pos := 0, matchList := [] }, rules := fun _ => initRuleSt }

/-- The top-level parse entry point.  Modelled from the spec
(section 6): run the start rule on a fresh context and report the
verdict, the cursor reached, and the match forest; a left-recursion
signal escaping the outermost rule makes the parse reject
(spec section 7). -/
def parseTop (G : Grammar) (start : RuleId) (input : List Char) (fuel : Nat) :
    Option (Bool × Nat × List MatchRec) :=
  match eval G fuel (.ruleRef start) (initPS input) with
  | none => none
  | some (.ok b, ps) => some (b, ps.ctx.pos, ps.ctx.matchList)
  | some (.lre _, ps) => some (false, ps.ctx.pos, ps.ctx.matchList)

/-! ## The verdict-based engine (rule.hpp) -/

/-- `parse_result` of the verdict-based engine (referenced throughout
`rule.hpp`): the closed set of verdicts `accepted`,
`accepted_left_recursion`, `rejected`, `rejected_left_recursion`. -/
inductive parse_result where
  | accepted
  | accepted_left_recursion
  | rejected
  | rejected_left_recursion
deriving DecidableEq, Repr

/-- `left_recursion_state` of the verdict-based engine (referenced
throughout `rule.hpp`): `inactive`, `reject`, `accept`. -/
inductive left_recursion_state where
  | inactive
  | reject
  | accept
deriving DecidableEq, Repr

/-- The context's left-recursion bookkeeping `pc.left_recursion`, a pair
of a `left_recursion_state` and an anchor position (used as
`pc.left_recursion.state` / `pc.left_recursion.position` in `rule.hpp`). -/
structure left_recursion_info where
  state : left_recursion_state
  position : Nat
deriving DecidableEq, Repr

/-- The parse context of the verdict-based engine.  Modelled from the
spec and the uses in `rule.hpp` (`parse_context.hpp` is not in the
source tree): the cursor `position`, the end of input (`inputLen`), the
left-recursion bookkeeping, and for each rule the stack of positions at
which that rule has been entered (`pc.positions[this]`, a
`std::vector` whose back is the most recent entry; here the head of the
list is the most recent entry).  Spec section 3, Parse context. -/
structure vparse_context where
  inputLen : Nat
  position : Nat
  left_recursion : left_recursion_info
  positions : RuleId → List Nat

/-- `pc.valid()`.  Modelled from the spec: the cursor is strictly before
the end-of-input sentinel (`parse_context.hpp` is not in the source
tree; `rule.hpp` line 68 uses it as the grow-loop guard). -/
def vvalid (pc : vparse_context) : Bool :=
  decide (pc.position < pc.inputLen)

/-- A parser of the verdict-based engine, as a state transformer
(`m_expression->parse(pc)` in `rule.hpp`); `none` is fuel exhaustion. -/
abbrev VParserFun := vparse_context → Option (parse_result × vparse_context)

/-- `rule::activate` (`rule.hpp`, lines 159-164): push the current
position onto this rule's entry stack and report left recursion exactly
when the stack now has at least two entries and its top two entries are
equal (the newly pushed position and the previous top). -/
def vactivate (r : RuleId) (pc : vparse_context) : Bool × vparse_context :=
  (match pc.positions r with
   | [] => false
   | b :: _ => decide (pc.position = b),
   { pc with positions := fun q => if q = r then pc.position :: pc.positions r else pc.positions q })

/-- `rule::deactivate` (`rule.hpp`, lines 167-170): pop the most recent
entry position of this rule. -/
def vdeactivate (r : RuleId) (pc : vparse_context) : vparse_context :=
  { pc with positions := fun q => if q = r then (pc.positions q).tail else pc.positions q }

/-- The grow loop of `rule::parse` (`rule.hpp`, lines 68-89):
`for (bool loop = true; loop && pc.valid(); )`.  Each iteration sets the
anchor `pc.left_recursion.position` to the current cursor and re-parses
the body; `accepted` and `accepted_left_recursion` continue the loop,
`rejected` ends it keeping the carried result, `rejected_left_recursion`
ends it and overrides the result.  The C++ loop is unfueled; `none`
means it did not finish within `fuel` iterations. -/
def vgrow (body : VParserFun) : Nat → parse_result → vparse_context →
    Option (parse_result × vparse_context)
  | 0, _, _ => none
  | fuel + 1, result, pc =>
    if vvalid pc then
      match body { pc with left_recursion := { pc.left_recursion with position := pc.position } } with
      | none => none
      | some (.accepted, pc2) => vgrow body fuel result pc2
      | some (.accepted_left_recursion, pc2) => vgrow body fuel result pc2
      | some (.rejected, pc2) => some (result, pc2)
      | some (.rejected_left_recursion, pc2) => some (.rejected_left_recursion, pc2)
    else some (result, pc)

/-- The body of `rule::parse` between `activate` and `deactivate`
(`rule.hpp`, lines 53-147): the three-way switch on
`pc.left_recursion.state`, with `is_lr` the flag returned by
`activate` and `pc` the context after `activate`.

* `inactive`, non-recursive entry: save `pc.left_recursion`, parse the
  body; if the body flipped the state to `reject` then on `accepted`
  switch to `accept` state and run the grow loop; restore the saved
  bookkeeping afterwards (the restore happens only under the `reject`
  test, as in the source).
* `inactive`, recursive entry: set the bookkeeping to
  (`reject`, current position) and return `rejected_left_recursion`.
* `reject`/`accept`, non-recursive entry strictly past the anchor:
  parse the body with the bookkeeping temporarily reset to
  (`inactive`, current position), restoring it afterwards.
* `reject`, non-recursive at or before the anchor: parse the body.
* `accept`, non-recursive at or before the anchor: parse the body,
  upgrading `accepted` to `accepted_left_recursion`.
* `reject`, recursive entry: `rejected_left_recursion`.
* `accept`, recursive entry: `accepted`. -/
def vruleBody (body : VParserFun) (fuel : Nat) (is_lr : Bool) (pc : vparse_context) :
    Option (parse_result × vparse_context) :=
  match pc.left_recursion.state with
  | .inactive =>
    if is_lr then
      some (.rejected_left_recursion,
            { pc with left_recursion := { state := .reject, position := pc.position } })
    else
      match body pc with
      | none => none
      | some (result, pc1) =>
        if pc1.left_recursion.state = .reject then
          if result = .accepted then
            match vgrow body fuel .accepted
                { pc1 with left_recursion := { pc1.left_recursion with state := .accept } } with
            | none => none
            | some (result2, pc3) => some (result2, { pc3 with left_recursion := pc.left_recursion })
          else
            some (result, { pc1 with left_recursion := pc.left_recursion })
        else
          some (result, pc1)
  | .reject =>
    if is_lr then
      some (.rejected_left_recursion, pc)
    else
      if pc.left_recursion.position < pc.position then
        match body { pc with left_recursion := { state := .inactive, position := pc.position } } with
        | none => none
        | some (result, pc1) => some (result, { pc1 with left_recursion := pc.left_recursion })
      else
        body pc
  | .accept =>
    if is_lr then
      some (.accepted, pc)
    else
      if pc.left_recursion.position < pc.position then
        match body { pc with left_recursion := { state := .inactive, position := pc.position } } with
        | none => none
        | some (result, pc1) => some (result, { pc1 with left_recursion := pc.left_recursion })
      else
        match body pc with
        | none => none
        | some (.accepted, pc1) => some (.accepted_left_recursion, pc1)
        | some (result, pc1) => some (result, pc1)

/-- `rule::parse` (`rule.hpp`, lines 47-152): activate, run the switch,
deactivate, and return the result. -/
def vruleParse (r : RuleId) (body : VParserFun) (fuel : Nat) (pc : vparse_context) :
    Option (parse_result × vparse_context) :=
  match vruleBody body fuel (vactivate r pc).1 (vactivate r pc).2 with
  | none => none
  | some (result, pcf) => some (result, vdeactivate r pcf)

/-! ## Claim C1: same-position re-entry of a rule -/

/-- Claim C1: when a rule is invoked a second time at the same cursor
position (its recorded parse position equals the cursor), the result is
determined solely by its current recursion state, for every body and
every context: in `Normal` state it raises the left-recursion signal, in
`Reject` state it returns rejected, in `Accept` state it returns
accepted; in all three cases with zero cursor advance and the machine
state unchanged. -/
theorem rule_reentry_determined_by_state (r : RuleId) (body : ParserFun) (ps : PS)
    (h : (ps.rules r).parsePosition = some ps.ctx.pos) :
    ((ps.rules r).state = .Normal → ruleInvoke r body ps = some (.lre r, ps)) ∧
    ((ps.rules r).state = .Reject → ruleInvoke r body ps = some (.ok false, ps)) ∧
    ((ps.rules r).state = .Accept → ruleInvoke r body ps = some (.ok true, ps)) := by
  refine ⟨fun hs => ?_, fun hs => ?_, fun hs => ?_⟩ <;>
    simp [ruleInvoke, h, hs]

/-- Witness for C1: a concrete rule state that is a same-position
re-entry in `Accept` state returns accepted with the state unchanged. -/
theorem rule_reentry_determined_by_state_witness :
    (((setRule 0 { parsePosition := some 0, state := .Accept } (initPS ['a'])).rules 0).parsePosition
        = some (setRule 0 { parsePosition := some 0, state := .Accept } (initPS ['a'])).ctx.pos) ∧
    (((setRule 0 { parsePosition := some 0, state := .Accept } (initPS ['a'])).rules 0).state = .Accept →
      ruleInvoke 0 (termParse 'b') (setRule 0 { parsePosition := some 0, state := .Accept } (initPS ['a']))
        = some (.ok true, setRule 0 { parsePosition := some 0, state := .Accept } (initPS ['a']))) := by
  constructor
  · rfl
  · exact (rule_reentry_determined_by_state 0 (termParse 'b')
      (setRule 0 { parsePosition := some 0, state := .Accept } (initPS ['a'])) rfl).2.2

/-! ## Claim C6: ordered-choice commitment to the first success -/

/-- Claim C6: if the first alternative `A` of an ordered choice succeeds
at the current position, the choice's result (verdict and whole machine
state, hence cursor and match list) is exactly what `A` alone produced,
and the second alternative is never attempted: the result is the same
for every `B`. -/
theorem choice_commits_to_first_success (A B : ParserFun) (fuel : Nat) (ps ps' : PS)
    (h : A ps = some (.ok true, ps')) :
    parseTuple fuel [A, B] ps = some (.ok true, ps') ∧
    (∀ B' : ParserFun, parseTuple fuel [A, B'] ps = some (.ok true, ps')) := by
  refine ⟨?_, fun B' => ?_⟩ <;> simp [parseTuple, h]

/-- Witness for C6: with `A` the terminal parser for `a` and `B` the
terminal parser for `b` on input `ab`, the choice commits to `A`. -/
theorem choice_commits_to_first_success_witness :
    (termParse 'a' (initPS ['a', 'b']) =
      some (.ok true, { initPS ['a', 'b'] with
        ctx := { (initPS ['a', 'b']).ctx with pos := 1 } })) ∧
    (parseTuple 1 [termParse 'a', termParse 'b'] (initPS ['a', 'b']) =
      some (.ok true, { initPS ['a', 'b'] with
        ctx := { (initPS ['a', 'b']).ctx with pos := 1 } }) ∧
    ∀ B' : ParserFun, parseTuple 1 [termParse 'a', B'] (initPS ['a', 'b']) =
      some (.ok true, { initPS ['a', 'b'] with
        ctx := { (initPS ['a', 'b']).ctx with pos := 1 } })) := by
  refine ⟨rfl, choice_commits_to_first_success (termParse 'a') (termParse 'b') 1
    (initPS ['a', 'b']) _ rfl⟩

/-! ## Claim C8: determinism of parsing -/

/-- Claim C8: parsing is deterministic.  Two invocations of the parse of
the same grammar and input (with the same fuel budget of the embedding)
produce an identical verdict, an identical final cursor position and an
identical match forest.  The engine embedded here is a pure function of
the grammar and the input: the C++ evaluation is strictly sequential,
consults no external state, and commits to the first success, so the
whole outcome triple is a function of `(G, I)`. -/
theorem parse_deterministic (G : Grammar) (start : RuleId) (input : List Char) (fuel : Nat)
    (out1 out2 : Option (Bool × Nat × List MatchRec))
    (h1 : parseTop G start input fuel = out1)
    (h2 : parseTop G start input fuel = out2) :
    out1 = out2 :=
  h1.symm.trans h2

/-- Witness for C8: a concrete grammar and input evaluated twice give
the same (successful) outcome. -/
theorem parse_deterministic_witness :
    parseTop (fun _ => Expr.term 'a') 0 ['a'] 3 = some (true, 1, []) ∧
    (some (true, 1, []) : Option (Bool × Nat × List MatchRec)) = some (true, 1, []) :=
  ⟨rfl, parse_deterministic (fun _ => Expr.term 'a') 0 ['a'] 3 _ _ rfl rfl⟩

/-! ## Claim C4: save/restore of the rule state across an invocation -/

/-- Counterexample to claim C4 as stated: a rule invocation that is not a
same-position re-entry (the fresh rule has no recorded position) and
whose body raises the left-recursion signal does NOT restore the rule's
recursion state and parse position.  Concretely, invoking rule 0 with
body `rule 0 (term a)` on input `a` from a fresh state: the outer entry
records position 0 and state `Normal`, the inner same-position re-entry
raises the signal, and the signal leaves the invocation with the rule
still at `(some 0, Normal)` instead of the prior `(none, Normal)` —
C++ stack unwinding skips the restore in `Rule.hpp` lines 74-76. -/
theorem rule_state_not_restored_on_signal :
    ((initPS ['a']).rules 0).parsePosition ≠ some (initPS ['a']).ctx.pos ∧
    ruleInvoke 0 (ruleInvoke 0 (termParse 'a')) (initPS ['a']) =
      some (.lre 0, setRule 0 { parsePosition := some 0, state := .Normal } (initPS ['a'])) ∧
    (setRule 0 { parsePosition := some 0, state := .Normal } (initPS ['a'])).rules 0 ≠
      (initPS ['a']).rules 0 := by
  refine ⟨by decide, rfl, by decide⟩

/-- Claim C4 (amended): for every rule invocation that is not a
same-position re-entry, the rule's recursion state and recorded parse
position are saved on entry and restored to their prior values on exit
when the body returns a verdict (accepted or rejected); when the body
raises the left-recursion signal, the invocation propagates the signal
with the state set at entry left in place (the unwinding skips the
restore, and the enclosing choice relies on the rule still being marked
active at its entry position). -/
theorem rule_state_saved_and_restored (r : RuleId) (body : ParserFun) (ps : PS)
    (hne : (ps.rules r).parsePosition ≠ some ps.ctx.pos) :
    (∀ b psb,
      body (setRule r { parsePosition := some ps.ctx.pos, state := .Normal } ps) = some (.ok b, psb) →
      ruleInvoke r body ps = some (.ok b, setRule r (ps.rules r) psb) ∧
      (setRule r (ps.rules r) psb).rules r = ps.rules r) ∧
    (∀ q psb,
      body (setRule r { parsePosition := some ps.ctx.pos, state := .Normal } ps) = some (.lre q, psb) →
      ruleInvoke r body ps = some (.lre q, psb)) := by
  constructor
  · intro b psb hb
    refine ⟨?_, by simp [setRule]⟩
    simp [ruleInvoke, hne, hb]
  · intro q psb hb
    simp [ruleInvoke, hne, hb]

/-- Witness for the amended C4: invoking rule 0 with body `term a` on
input `a` from a fresh state restores the rule's fields on the accepting
exit. -/
theorem rule_state_saved_and_restored_witness :
    ((initPS ['a']).rules 0).parsePosition ≠ some (initPS ['a']).ctx.pos ∧
    ((∀ b psb,
      termParse 'a' (setRule 0 { parsePosition := some 0, state := .Normal } (initPS ['a'])) = some (.ok b, psb) →
      ruleInvoke 0 (termParse 'a') (initPS ['a']) = some (.ok b, setRule 0 ((initPS ['a']).rules 0) psb) ∧
      (setRule 0 ((initPS ['a']).rules 0) psb).rules 0 = (initPS ['a']).rules 0) ∧
    (∀ q psb,
      termParse 'a' (setRule 0 { parsePosition := some 0, state := .Normal } (initPS ['a'])) = some (.lre q, psb) →
      ruleInvoke 0 (termParse 'a') (initPS ['a']) = some (.lre q, psb))) := by
  have h := rule_state_saved_and_restored 0 (termParse 'a') (initPS ['a']) (by decide)
  exact ⟨by decide, by simpa [initPS] using h⟩

/-! ## Claim C2: the seed-and-grow protocol of the ordered choice -/

/-- The grow loop never reports failure: it either ends the whole choice
with success (`ok true`), propagates a nested left-recursion signal, or
exhausts the fuel. -/
theorem growLoop_ne_ok_false (child : ParserFun) (r : RuleId) :
    ∀ (fuel : Nat) (ps ps' : PS), growLoop child r fuel ps ≠ some (.ok false, ps') := by
  intro fuel
  induction fuel with
  | zero => intro ps ps' h; simp [growLoop] at h
  | succ n ih =>
    intro ps ps' h
    simp only [growLoop] at h
    rcases hc : child (setParsePosition r ps.ctx.pos ps) with _ | ⟨res, ps2⟩ <;> rw [hc] at h
    · exact Option.noConfusion h
    · rcases res with b | q
      · rcases b with _ | _
        · simp at h
        · by_cases hend : ps2.ctx.pos = ps2.ctx.input.length
          · simp [hend] at h
          · simp only [if_neg hend] at h
            exact ih ps2 ps' h
      · simp at h

/-- Claim C2: when the first alternative of an ordered choice raises the
left-recursion signal for rule `r`, the choice sets `r`'s state to
`Reject` and re-attempts the remaining alternatives in order; if they
all fail, the same signal (same rule `r`) is re-propagated upward; if
they succeed (producing the seed), `r` is put in `Accept` state, the
grow loop runs, and whenever the grow loop completes the choice returns
overall success. -/
theorem choice_seed_and_grow (c : ParserFun) (rest : List ParserFun) (fuel : Nat)
    (ps ps1 : PS) (r : RuleId)
    (h : c ps = some (.lre r, ps1)) :
    (∀ ps3, parseTuple fuel rest (setRejectState r ps1) = some (.ok false, ps3) →
      parseTuple fuel (c :: rest) ps = some (.lre r, ps3)) ∧
    (∀ ps3 b ps4, parseTuple fuel rest (setRejectState r ps1) = some (.ok true, ps3) →
      growLoop c r fuel (setAcceptState r ps3) = some (.ok b, ps4) →
      parseTuple fuel (c :: rest) ps = some (.ok true, ps4)) := by
  constructor
  · intro ps3 hrest
    simp [parseTuple, h, hrest]
  · intro ps3 b ps4 hrest hgrow
    rcases b with _ | _
    · exact absurd hgrow (growLoop_ne_ok_false c r fuel _ ps4)
    · simp [parseTuple, h, hrest, hgrow]

/-- Witness for C2: the choice whose first alternative is a bare
reference to rule 0 (already active at position 0, hence raising the
signal) and whose second alternative is the terminal `a`, on input `a`. -/
theorem choice_seed_and_grow_witness :
    (ruleInvoke 0 (termParse 'z') (setRule 0 { parsePosition := some 0, state := .Normal } (initPS ['a']))
      = some (.lre 0, setRule 0 { parsePosition := some 0, state := .Normal } (initPS ['a']))) ∧
    ((∀ ps3, parseTuple 1 [termParse 'a']
        (setRejectState 0 (setRule 0 { parsePosition := some 0, state := .Normal } (initPS ['a'])))
        = some (.ok false, ps3) →
      parseTuple 1 [ruleInvoke 0 (termParse 'z'), termParse 'a']
        (setRule 0 { parsePosition := some 0, state := .Normal } (initPS ['a']))
        = some (.lre 0, ps3)) ∧
     (∀ ps3 b ps4, parseTuple 1 [termParse 'a']
        (setRejectState 0 (setRule 0 { parsePosition := some 0, state := .Normal } (initPS ['a'])))
        = some (.ok true, ps3) →
      growLoop (ruleInvoke 0 (termParse 'z')) 0 1 (setAcceptState 0 ps3) = some (.ok b, ps4) →
      parseTuple 1 [ruleInvoke 0 (termParse 'z'), termParse 'a']
        (setRule 0 { parsePosition := some 0, state := .Normal } (initPS ['a']))
        = some (.ok true, ps4))) :=
  ⟨rfl, choice_seed_and_grow (ruleInvoke 0 (termParse 'z')) [termParse 'a'] 1 _ _ 0 rfl⟩

/-! ## Claim C5: rollback on failure of the ordered choice -/

/-- The engine invariant that subparsers only extend the match list:
every outcome's match list has the input's match list as a prefix.  All
parsers of the engine have this shape (terminals never touch the list,
combinators append or truncate back to their own entry length); the
rollback property of the choice is proved for subparsers satisfying it. -/
def AppendsMatches (c : ParserFun) : Prop :=
  ∀ ps res ps', c ps = some (res, ps') →
    ∃ ext, ps'.ctx.matchList = ps.ctx.matchList ++ ext

/-- Every alternative of the choice, attempted in order with the context
restored to the snapshot taken before it, returns the rejected verdict. -/
def AllReject : List ParserFun → PS → Prop
  | [], _ => True
  | c :: rest, ps =>
    ∃ ps1, c ps = some (.ok false, ps1) ∧ AllReject rest (ps1.setState ps.state)

/-- A terminal parser never touches the match list. -/
theorem termParse_appendsMatches (c : Char) : AppendsMatches (termParse c) := by
  intro ps res ps' h
  refine ⟨[], ?_⟩
  rw [List.append_nil]
  unfold termParse at h
  split at h
  · split at h <;>
    · have h' := Option.some.inj h
      injection h' with h1 h2
      subst h2
      rfl
  · have h' := Option.some.inj h
    injection h' with h1 h2
    subst h2
    rfl

/-- Claim C5: if the ordered choice rejects, the cursor and the match
list observed by the caller afterwards equal those observed before the
choice; each alternative that fails is rolled back to the snapshot taken
before it, before the next alternative is attempted (this threading is
the `AllReject` predicate); and the choice rejects exactly when every
alternative, so attempted, rejects. -/
theorem choice_rollback_on_failure (cs : List ParserFun) (fuel : Nat) (ps : PS)
    (happ : ∀ c ∈ cs, AppendsMatches c) :
    (∀ ps', parseTuple fuel cs ps = some (.ok false, ps') →
      ps'.ctx.pos = ps.ctx.pos ∧ ps'.ctx.matchList = ps.ctx.matchList) ∧
    ((∃ ps', parseTuple fuel cs ps = some (.ok false, ps')) ↔ AllReject cs ps) := by
  induction cs generalizing ps with
  | nil =>
    constructor
    · intro ps' h
      simp [parseTuple] at h
      simp [← h]
    · simp [parseTuple, AllReject]
  | cons c rest ih =>
    have hc : AppendsMatches c := happ c (by simp)
    have hrest : ∀ c' ∈ rest, AppendsMatches c' := fun c' h' => happ c' (by simp [h'])
    rcases hcc : c ps with _ | ⟨res, ps1⟩
    · constructor
      · intro ps' h
        simp [parseTuple, hcc] at h
      · constructor
        · rintro ⟨ps', h⟩
          simp [parseTuple, hcc] at h
        · rintro ⟨ps1, h1, _⟩
          rw [hcc] at h1
          exact Option.noConfusion h1
    · rcases res with b | q
      · rcases b with _ | _
        · -- child rejected: restore and continue with the rest
          obtain ⟨ext, hext⟩ := hc ps _ _ hcc
          have hpos : (ps1.setState ps.state).ctx.pos = ps.ctx.pos := rfl
          have hml : (ps1.setState ps.state).ctx.matchList = ps.ctx.matchList := by
            simp [PS.setState, PS.state, hext, List.take_left]
          have hstep : parseTuple fuel (c :: rest) ps = parseTuple fuel rest (ps1.setState ps.state) := by
            simp [parseTuple, hcc]
          obtain ⟨ihA, ihB⟩ := ih (ps1.setState ps.state) hrest
          constructor
          · intro ps' h
            rw [hstep] at h
            obtain ⟨ha, hb⟩ := ihA ps' h
            exact ⟨ha.trans hpos, hb.trans hml⟩
          · rw [hstep]  -- hmm: rewriting inside the existential
            constructor
            · rintro hex
              exact ⟨ps1, hcc, ihB.mp hex⟩
            · rintro ⟨ps1', h1, hall⟩
              rw [hcc] at h1
              obtain ⟨he, h2⟩ := Prod.mk.injEq .. ▸ Option.some.inj h1
              subst h2
              exact ihB.mpr hall
        · -- child succeeded: the choice succeeds, so it does not reject
          constructor
          · intro ps' h
            simp [parseTuple, hcc] at h
          · constructor
            · rintro ⟨ps', h⟩
              simp [parseTuple, hcc] at h
            · rintro ⟨ps1', h1, _⟩
              rw [hcc] at h1
              simp at h1
      · -- child raised the left-recursion signal: the choice either
        -- succeeds via seed-and-grow, re-raises, or runs out of fuel;
        -- it never rejects on this path
        have hnotfalse : ∀ ps', parseTuple fuel (c :: rest) ps ≠ some (.ok false, ps') := by
          intro ps' h
          simp only [parseTuple, hcc] at h
          rcases hrest2 : parseTuple fuel rest (setRejectState q ps1) with _ | ⟨res2, ps3⟩ <;>
            rw [hrest2] at h
          · exact Option.noConfusion h
          · rcases res2 with b2 | q2
            · rcases b2 with _ | _
              · simp at h
              · exact growLoop_ne_ok_false c q fuel _ ps' h
            · simp at h
        constructor
        · intro ps' h
          exact absurd h (hnotfalse ps')
        · constructor
          · rintro ⟨ps', h⟩
            exact absurd h (hnotfalse ps')
          · rintro ⟨ps1', h1, _⟩
            rw [hcc] at h1
            simp at h1

/-- Witness for C5: a two-alternative choice of terminals `b`, `c` on
input `a`; both alternatives reject, and the rollback property is
obtained from the theorem at this concrete instance. -/
theorem choice_rollback_on_failure_witness :
    (∀ c ∈ [termParse 'b', termParse 'c'], AppendsMatches c) ∧
    ((∀ ps', parseTuple 1 [termParse 'b', termParse 'c'] (initPS ['a']) = some (.ok false, ps') →
        ps'.ctx.pos = (initPS ['a']).ctx.pos ∧ ps'.ctx.matchList = (initPS ['a']).ctx.matchList) ∧
     ((∃ ps', parseTuple 1 [termParse 'b', termParse 'c'] (initPS ['a']) = some (.ok false, ps')) ↔
        AllReject [termParse 'b', termParse 'c'] (initPS ['a']))) := by
  have happ : ∀ c ∈ [termParse 'b', termParse 'c'], AppendsMatches c := by
    intro c hc
    simp only [List.mem_cons, List.not_mem_nil, or_false] at hc
    rcases hc with h | h <;> subst h <;> exact termParse_appendsMatches _
  exact ⟨happ, choice_rollback_on_failure _ 1 (initPS ['a']) happ⟩

/-! ## Claim C3: termination of the grow loop -/

/-- The grammar `E = E | a` (an ordered choice whose first alternative
is a bare reference to the rule itself): legal to write with the
library's operators (`rule | parser` builds a `ChoiceParser` over a
`RuleReference`). -/
def GE : Grammar := fun _ => .choice [.ruleRef 0, .term 'a']

/-- Once the grow phase reaches a state at position 1 on input `ab`
with rule 0 in `Accept` state and recorded position about to be set to
the cursor, every iteration of the choice's grow loop re-enters the rule
at its recorded position, returns accepted with zero advance, is not at
end-of-input, and loops again: the loop exhausts every fuel.  The
`child` hypothesis is exactly the same-position re-entry behaviour of
`Rule::operator()` in `Accept` state. -/
theorem grow_stuck (k : Nat) : ∀ (child : ParserFun) (ps : PS),
    ps.ctx.input = ['a', 'b'] → ps.ctx.pos = 1 → (ps.rules 0).state = .Accept →
    (∀ ps', ps'.ctx.pos = 1 → (ps'.rules 0).parsePosition = some 1 →
      (ps'.rules 0).state = .Accept → child ps' = some (.ok true, ps')) →
    growLoop child 0 k ps = none := by
  induction k with
  | zero => intro child ps _ _ _ _; rfl
  | succ n ih =>
    intro child ps hin hpos hst hchild
    have hctx : (setParsePosition 0 ps.ctx.pos ps).ctx = ps.ctx := rfl
    have hrules : (setParsePosition 0 ps.ctx.pos ps).rules 0 =
        { parsePosition := some ps.ctx.pos, state := (ps.rules 0).state } := by
      simp [setParsePosition, setRule]
    have hc := hchild (setParsePosition 0 ps.ctx.pos ps) (hctx ▸ hpos)
      (by rw [hrules, hpos]) (by rw [hrules, hst])
    simp only [growLoop, hc]
    rw [show (setParsePosition 0 ps.ctx.pos ps).ctx.pos = 1 from hctx ▸ hpos,
        show (setParsePosition 0 ps.ctx.pos ps).ctx.input = ['a', 'b'] from hctx ▸ hin]
    simp only [List.length_cons, List.length_nil]
    norm_num
    exact ih child _ (hctx ▸ hin) (hctx ▸ hpos) (by rw [hrules, hst]) hchild

/-- Claim C3 (refuting theorem): the grow loop of the ordered choice
does NOT terminate on every finite input.  For the grammar
`E = E | a` (first alternative a bare reference to the rule itself) on
input `ab`, the seed phase parses `a` and then every grow iteration
re-invokes the recursive alternative, which returns accepted with zero
cursor advance at position 1; position 1 is not end-of-input, and the
loop in `ChoiceParser.hpp` lines 70-78 only stops on rejection or
end-of-input, so it never stops: the parse exhausts every fuel budget
(the C++ engine loops forever).  The claim's requirement that an
iteration accepting with zero advance ends the loop is not implemented. -/
theorem grow_loop_diverges_on_zero_advance (fuel : Nat) :
    eval GE fuel (.ruleRef 0) (initPS ['a', 'b']) = none := by
  match fuel with
  | 0 => rfl
  | 1 => rfl
  | 2 => rfl
  | (k+3) =>
    simp only [eval, GE, List.map]
    simp [ruleInvoke, setRule, initPS, initRuleSt, parseTuple, termParse,
      setRejectState, setAcceptState, PS.state, PS.setState]
    rw [grow_stuck (k+1) _ _ rfl rfl (by norm_num) ?_]
    intro ps' h1 h2 h3
    simp [h1, h2, h3]

/-! ## Claim C7: immutability of rules during parsing -/

/-- The grammar `S = R | a ; R = R b` used to exhibit mutation of a
rule object's fields by a completed parse (rule 0 is `S`, rule 1 is
`R`). -/
def G7 : Grammar := fun r =>
  if r = 0 then .choice [.ruleRef 1, .term 'a'] else .seq (.ruleRef 1) (.term 'b')

/-- Counterexample to claim C7 as stated for the exception-driven
implementation (`Rule.hpp`): the recursion state and parse position are
fields (`m_state`, `m_parsePosition`) of the `Rule` object itself — in
this embedding, the `PS.rules` component threads exactly those
per-object fields — and they ARE mutated during parsing.  Parsing input
`a` with `S = R | a ; R = R b` succeeds, yet afterwards rule `R`'s
fields hold `(some 1, Accept)` instead of their initial
`(none, Normal)`: the signal raised inside `R` escaped `R`'s own frame,
skipping the restore, and the choice in `S` then set `R`'s fields
directly; nothing restores them, so the mutation outlives the parse. -/
theorem rule_fields_mutated_by_parse :
    (eval G7 10 (.ruleRef 0) (initPS ['a'])).map (fun x => x.1) = some (.ok true) ∧
    (eval G7 10 (.ruleRef 0) (initPS ['a'])).map (fun x => x.2.rules 1) =
      some { parsePosition := some 1, state := .Accept } ∧
    (initPS ['a']).rules 1 = { parsePosition := none, state := .Normal } ∧
    ({ parsePosition := some 1, state := .Accept } : RuleSt) ≠
      { parsePosition := none, state := .Normal } := by
  refine ⟨by decide, by decide, by decide, by decide⟩

/-- Claim C7 (amended): in the verdict-based implementation
(`rule.hpp`), `rule::parse` is `const` and the per-rule recursion
bookkeeping lives inside the parse context keyed by rule identity:
activating or deactivating rule `r` touches only `r`'s own entry stack
in the context (every other rule's stack is untouched), and activation
pushes exactly the current position onto `r`'s stack.  In the
exception-driven implementation (`Rule.hpp`) the recursion state and
parse position are fields of the rule object itself and are mutated
during parsing (see the counterexample), so that part of the claim
holds only for the verdict-based engine. -/
theorem verdict_bookkeeping_keyed_by_rule (r q : RuleId) (pc : vparse_context)
    (hq : q ≠ r) :
    (vactivate r pc).2.positions q = pc.positions q ∧
    (vdeactivate r pc).positions q = pc.positions q ∧
    (vactivate r pc).2.positions r = pc.position :: pc.positions r ∧
    (vactivate r pc).2.left_recursion = pc.left_recursion ∧
    (vactivate r pc).2.position = pc.position := by
  refine ⟨?_, ?_, ?_, rfl, rfl⟩ <;> simp [vactivate, vdeactivate, hq]

/-- A small concrete verdict-engine context used by witnesses. -/
def pcW : vparse_context :=
  { inputLen := 2
    position := 0
    left_recursion := { state := .inactive, position := 0 }
    positions := fun _ => [] }

/-- Witness for the amended C7: rules 1 and 0 in a concrete context. -/
theorem verdict_bookkeeping_keyed_by_rule_witness :
    (1 : RuleId) ≠ 0 ∧
    ((vactivate 0 pcW).2.positions 1 = pcW.positions 1 ∧
     (vdeactivate 0 pcW).positions 1 = pcW.positions 1 ∧
     (vactivate 0 pcW).2.positions 0 = pcW.position :: pcW.positions 0 ∧
     (vactivate 0 pcW).2.left_recursion = pcW.left_recursion ∧
     (vactivate 0 pcW).2.position = pcW.position) :=
  ⟨by decide, verdict_bookkeeping_keyed_by_rule 0 1 pcW (by decide)⟩

/-! ## Claim C9: Reject/Accept apply only at the anchor position -/

/-- Claim C9: in the verdict-based rule implementation, the `reject` and
`accept` left-recursion states apply only at the recorded anchor
position.  For every rule entered non-recursively (`activate` reports no
left recursion) while the context's left-recursion state is `reject` or
`accept`, if the current position is strictly past the anchor position,
the body is parsed with the left-recursion bookkeeping temporarily reset
to `inactive` (anchored at the current position), and the prior
bookkeeping is restored afterwards (`rule.hpp`, lines 102-146). -/
theorem vrule_resets_state_past_anchor (r : RuleId) (body : VParserFun) (fuel : Nat)
    (pc : vparse_context)
    (hstate : pc.left_recursion.state = .reject ∨ pc.left_recursion.state = .accept)
    (hlr : (vactivate r pc).1 = false)
    (hpast : pc.left_recursion.position < pc.position) :
    vruleParse r body fuel pc =
      match body { inputLen := (vactivate r pc).2.inputLen, position := pc.position, left_recursion := { state := .inactive, position := pc.position }, positions := (vactivate r pc).2.positions } with
      | none => none
      | some (result, pc1) =>
        some (result, vdeactivate r { pc1 with left_recursion := pc.left_recursion }) := by
  unfold vruleParse vruleBody
  rw [hlr, show (vactivate r pc).2.left_recursion = pc.left_recursion from rfl,
      show (vactivate r pc).2.position = pc.position from rfl]
  rcases hstate with hs | hs <;> rw [hs] <;>
    rcases hb : body { inputLen := (vactivate r pc).2.inputLen, position := pc.position, left_recursion := { state := .inactive, position := pc.position }, positions := (vactivate r pc).2.positions } with _ | ⟨res, pc1⟩ <;>
    simp [hpast, hb]

/-- A concrete verdict-engine context in `reject` state anchored at 0
with the cursor already at 1, used by the C9 witness. -/
def pcW9 : vparse_context :=
  { inputLen := 2
    position := 1
    left_recursion := { state := .reject, position := 0 }
    positions := fun _ => [] }

/-- Witness for C9: a concrete non-recursive entry past the anchor with
an always-accepting body. -/
theorem vrule_resets_state_past_anchor_witness :
    (pcW9.left_recursion.state = .reject ∨ pcW9.left_recursion.state = .accept) ∧
    (vactivate 0 pcW9).1 = false ∧ pcW9.left_recursion.position < pcW9.position ∧
    vruleParse 0 (fun pc => some (.accepted, pc)) 1 pcW9 =
      match (fun (pc : vparse_context) => some (parse_result.accepted, pc)) { inputLen := (vactivate 0 pcW9).2.inputLen, position := pcW9.position, left_recursion := { state := .inactive, position := pcW9.position }, positions := (vactivate 0 pcW9).2.positions } with
      | none => none
      | some (result, pc1) =>
        some (result, vdeactivate 0 { pc1 with left_recursion := pcW9.left_recursion }) :=
  ⟨Or.inl rfl, rfl, by decide,
    vrule_resets_state_past_anchor 0 (fun pc => some (.accepted, pc)) 1 pcW9
      (Or.inl rfl) rfl (by decide)⟩

/-! ## Claim C10: the per-rule position-stack discipline -/

/-- A verdict-engine parser that leaves every rule's entry-position
stack at its original length on every outcome (the composite behaviour
of balanced `activate`/`deactivate` pairs inside the body). -/
def PreservesStacks (body : VParserFun) : Prop :=
  ∀ pc res pc', body pc = some (res, pc') →
    ∀ q, (pc'.positions q).length = (pc.positions q).length

/-- The grow loop preserves the per-rule stack lengths whenever the
body does. -/
theorem vgrow_preservesStacks (body : VParserFun) (hb : PreservesStacks body) :
    ∀ (fuel : Nat) (res0 : parse_result) (pc : vparse_context) (res : parse_result)
      (pc' : vparse_context), vgrow body fuel res0 pc = some (res, pc') →
      ∀ q, (pc'.positions q).length = (pc.positions q).length := by
  intro fuel
  induction fuel with
  | zero => intro res0 pc res pc' h; simp [vgrow] at h
  | succ n ih =>
    intro res0 pc res pc' h q
    simp only [vgrow] at h
    by_cases hv : vvalid pc
    · rw [if_pos hv] at h
      rcases hbody : body { pc with left_recursion := { pc.left_recursion with position := pc.position } } with _ | ⟨r2, pc2⟩ <;> rw [hbody] at h <;> try dsimp only at h
      · exact Option.noConfusion h
      · have hstep : ∀ q, (pc2.positions q).length = (pc.positions q).length :=
          fun q => hb _ _ _ hbody q
        rcases r2 with _ | _ | _ | _
        · exact (ih res0 pc2 res pc' h q).trans (hstep q)
        · exact (ih res0 pc2 res pc' h q).trans (hstep q)
        · have h2 := Option.some.inj h
          injection h2 with h21 h22
          subst h22
          exact hstep q
        · have h2 := Option.some.inj h
          injection h2 with h21 h22
          subst h22
          exact hstep q
    · rw [if_neg hv] at h
      have h2 := Option.some.inj h
      injection h2 with h21 h22
      subst h22
      rfl

/-- The part of `rule::parse` between `activate` and `deactivate`
preserves the per-rule stack lengths whenever the body does. -/
theorem vruleBody_preservesStacks (body : VParserFun) (hb : PreservesStacks body)
    (fuel : Nat) (is_lr : Bool) (pc : vparse_context) (res : parse_result)
    (pcf : vparse_context)
    (h : vruleBody body fuel is_lr pc = some (res, pcf)) :
    ∀ q, (pcf.positions q).length = (pc.positions q).length := by
  intro q
  unfold vruleBody at h
  rcases hst : pc.left_recursion.state with _ | _ | _ <;> rw [hst] at h <;> cases is_lr <;>
    simp only [Bool.false_eq_true, eq_self_iff_true, if_false, if_true] at h
  -- inactive, non-recursive
  · rcases hbody : body pc with _ | ⟨r1, pc1⟩ <;> rw [hbody] at h <;> try dsimp only at h
    · exact Option.noConfusion h
    · have hstep := hb _ _ _ hbody
      by_cases hrej : pc1.left_recursion.state = .reject
      · rw [if_pos hrej] at h
        by_cases hacc : r1 = .accepted
        · rw [if_pos hacc] at h
          rcases hg : vgrow body fuel .accepted { pc1 with left_recursion := { pc1.left_recursion with state := .accept } } with _ | ⟨r2, pc3⟩ <;> rw [hg] at h <;> try dsimp only at h
          · exact Option.noConfusion h
          · have hstep2 := vgrow_preservesStacks body hb fuel .accepted _ _ _ hg
            have h2 := Option.some.inj h
            injection h2 with h21 h22
            subst h22
            exact (hstep2 q).trans (hstep q)
        · rw [if_neg hacc] at h
          have h2 := Option.some.inj h
          injection h2 with h21 h22
          subst h22
          exact hstep q
      · rw [if_neg hrej] at h
        have h2 := Option.some.inj h
        injection h2 with h21 h22
        subst h22
        exact hstep q
  -- inactive, recursive
  · have h2 := Option.some.inj h
    injection h2 with h21 h22
    subst h22
    rfl
  -- reject, non-recursive
  · by_cases hpos : pc.left_recursion.position < pc.position
    · rw [if_pos hpos] at h
      rcases hbody : body { pc with left_recursion := { state := .inactive, position := pc.position } } with _ | ⟨r1, pc1⟩ <;> rw [hbody] at h <;> try dsimp only at h
      · exact Option.noConfusion h
      · have h2 := Option.some.inj h
        injection h2 with h21 h22
        subst h22
        exact hb _ _ _ hbody q
    · rw [if_neg hpos] at h
      exact hb _ _ _ h q
  -- reject, recursive
  · have h2 := Option.some.inj h
    injection h2 with h21 h22
    subst h22
    rfl
  -- accept, non-recursive
  · by_cases hpos : pc.left_recursion.position < pc.position
    · rw [if_pos hpos] at h
      rcases hbody : body { pc with left_recursion := { state := .inactive, position := pc.position } } with _ | ⟨r1, pc1⟩ <;> rw [hbody] at h <;> try dsimp only at h
      · exact Option.noConfusion h
      · have h2 := Option.some.inj h
        injection h2 with h21 h22
        subst h22
        exact hb _ _ _ hbody q
    · rw [if_neg hpos] at h
      rcases hbody : body pc with _ | ⟨r1, pc1⟩ <;> rw [hbody] at h <;> try dsimp only at h
      · exact Option.noConfusion h
      · have hstep := hb _ _ _ hbody
        rcases r1 with _ | _ | _ | _ <;>
          · have h2 := Option.some.inj h
            injection h2 with h21 h22
            subst h22
            exact hstep q
  -- accept, recursive
  · have h2 := Option.some.inj h
    injection h2 with h21 h22
    subst h22
    rfl

/-- Claim C10: every invocation of `rule::parse` pushes exactly one
entry position (in `activate`) and pops exactly one (in `deactivate`),
so after every completed invocation each rule's entry stack has the same
length as before (given that the body is itself balanced); and an
invocation is classified as left-recursive exactly when, after the push,
the top two entries of the invoked rule's stack are equal. -/
theorem vrule_stack_discipline (r : RuleId) (body : VParserFun) (fuel : Nat)
    (pc : vparse_context) (hb : PreservesStacks body) :
    (∀ res pc', vruleParse r body fuel pc = some (res, pc') →
      ∀ q, (pc'.positions q).length = (pc.positions q).length) ∧
    ((vactivate r pc).1 = true ↔
      ∃ p rest, (vactivate r pc).2.positions r = p :: p :: rest) := by
  constructor
  · intro res pc' h q
    unfold vruleParse at h
    rcases hB : vruleBody body fuel (vactivate r pc).1 (vactivate r pc).2 with _ | ⟨r2, pcf⟩ <;>
      rw [hB] at h <;> try dsimp only at h
    · exact Option.noConfusion h
    · have h2 := Option.some.inj h
      injection h2 with h21 h22
      subst h22
      have hbody := vruleBody_preservesStacks body hb fuel _ _ _ _ hB q
      by_cases hq : q = r
      · subst hq
        have hact : ((vactivate q pc).2.positions q).length = (pc.positions q).length + 1 := by
          simp [vactivate]
        simp [vdeactivate, List.length_tail, hbody, hact]
      · have hact : ((vactivate r pc).2.positions q).length = (pc.positions q).length := by
          simp [vactivate, hq]
        simp [vdeactivate, hq, hbody, hact]
  · constructor
    · intro hflag
      rcases hstk : pc.positions r with _ | ⟨b, t⟩ <;>
        rw [show (vactivate r pc).1 =
          (match pc.positions r with | [] => false | b :: _ => decide (pc.position = b)) from rfl,
          hstk] at hflag
      · exact absurd hflag (by simp)
      · have hpb : pc.position = b := of_decide_eq_true hflag
        refine ⟨pc.position, t, ?_⟩
        simp [vactivate, hstk, hpb]
    · rintro ⟨p, t, hp⟩
      have hp2 : pc.position :: pc.positions r = p :: p :: t := by
        simpa [vactivate] using hp
      injection hp2 with h1 h2
      subst h1
      rw [show (vactivate r pc).1 =
        (match pc.positions r with | [] => false | b :: _ => decide (pc.position = b)) from rfl,
        h2]
      simp

/-- Witness for C10: a body that accepts without touching any stack, on
a concrete context. -/
theorem vrule_stack_discipline_witness :
    PreservesStacks (fun pc => some (.accepted, pc)) ∧
    ((∀ res pc', vruleParse 0 (fun pc => some (.accepted, pc)) 1 pcW = some (res, pc') →
      ∀ q, (pc'.positions q).length = (pcW.positions q).length) ∧
    ((vactivate 0 pcW).1 = true ↔
      ∃ p rest, (vactivate 0 pcW).2.positions 0 = p :: p :: rest)) := by
  have hb : PreservesStacks (fun pc => some (.accepted, pc)) := by
    intro pc res pc' h q
    have h2 := Option.some.inj h
    injection h2 with ha hpc
    subst hpc
    rfl
  exact ⟨hb, vrule_stack_discipline 0 (fun pc => some (.accepted, pc)) 1 pcW hb⟩
